import Mathlib

/-!
Verification of the url-shortener backend's short-code allocation and
URL-validation logic, shallowly embedded in Lean 4.

Strings are modelled as `List Char` (the character sequence of a JS string).
External library calls (the `validator` package's `isURL`, the WHATWG `URL`
parser, the `nanoid` random generator, and the SQL engine's row operations)
are modelled abstractly: the URL parser is a parameter `parse`, the random
source of `nanoid` is a parameter `rnd`, and SQL statements are translated to
the corresponding list operations on the table's rows.
-/

/-- Characters of a JS string. -/
abbrev Str := List Char

/-- Result of parsing a string with the WHATWG `URL` constructor (`new URL(url)`),
abstracted: the scheme (protocol without the colon), the hostname, and the
canonical serialisation `urlObj.toString()`. `none` models the constructor
throwing on unparsable input. -/
structure UrlParts where
  scheme : Str
  hostname : Str
  toStr : Str
deriving DecidableEq, Repr

/-- Host filter of `UrlValidator.isValidUrl` (urlValidator.ts lines 22-29):
hostname equals localhost or 127.0.0.1, or starts with 192.168., 10. or 172. -/
def hostBlocked (h : Str) : Bool :=
  h == "localhost".toList ||
  h == "127.0.0.1".toList ||
  "192.168.".toList.isPrefixOf h ||
  "10.".toList.isPrefixOf h ||
  "172.".toList.isPrefixOf h

/-- Model of `validator.isURL(url, { protocols: ['http','https'], require_protocol: true })`:
the string parses as an absolute URL whose scheme is http or https. The same
abstract parser used for `new URL` is used here. -/
def isURLHttpOk (parse : Str → Option UrlParts) (url : Str) : Bool :=
  match parse url with
  | some u => u.scheme == "http".toList || u.scheme == "https".toList
  | none => false

/-- Embedding of `UrlValidator.isValidUrl` (urlValidator.ts lines 4-35).
The `!url` guard is the empty-string check; the `typeof` guard is subsumed by
the typed embedding. The `try/catch` around `new URL` is the `none` branch. -/
def UrlValidator.isValidUrl (parse : Str → Option UrlParts) (url : Str) : Bool :=
  if url.isEmpty then false
  else if !(isURLHttpOk parse url) then false
  else
    match parse url with
    | none => false
    | some u => !(hostBlocked u.hostname)

/-- Embedding of the JS `replace(/\x2f$/, '')`: remove a single trailing
slash when present. -/
def stripTrailingSlash (s : Str) : Str :=
  match s.getLast? with
  | some c => if c = '/' then s.dropLast else s
  | none => s

/-- Embedding of `UrlValidator.normalizeUrl` (urlValidator.ts lines 37-45):
parse, serialise, strip one trailing slash; on parse failure return the
input unchanged. -/
def UrlValidator.normalizeUrl (parse : Str → Option UrlParts) (url : Str) : Str :=
  match parse url with
  | some u => stripTrailingSlash u.toStr
  | none => url

/-- The nanoid URL-safe alphabet (64 characters), as in the nanoid library
used by `ShortCodeGenerator.generate`. -/
def urlAlphabet : Str :=
  "useandom-26T198340PX75pxJACKVERYMINDBUSHWOLF_GQZbfghjklqvwyzrict".toList

/-- Model of `nanoid(length)`: `length` characters drawn from the 64-character
URL-safe alphabet, the draws given by the abstract random source `rnd`. -/
def nanoid (rnd : Nat → Fin 64) (length : Nat) : Str :=
  (List.range length).map (fun i => urlAlphabet.get (Fin.cast (by decide) (rnd i)))

/-- `ShortCodeGenerator.DEFAULT_LENGTH` (shortCodeGenerator source line 4). -/
def ShortCodeGenerator.DEFAULT_LENGTH : Nat := 6

/-- `ShortCodeGenerator.CUSTOM_CODE_MAX_LENGTH`. -/
def ShortCodeGenerator.CUSTOM_CODE_MAX_LENGTH : Nat := 20

/-- Embedding of `ShortCodeGenerator.generate(length)` = `nanoid(length)`. -/
def ShortCodeGenerator.generate (rnd : Nat → Fin 64) (length : Nat) : Str :=
  nanoid rnd length

/-- `generate()` with the default argument `DEFAULT_LENGTH`. -/
def ShortCodeGenerator.generateDefault (rnd : Nat → Fin 64) : Str :=
  ShortCodeGenerator.generate rnd ShortCodeGenerator.DEFAULT_LENGTH

/-- The character class of the regex `[a-zA-Z0-9]`. -/
def isAlphanumAscii (c : Char) : Bool :=
  ('a' ≤ c && c ≤ 'z') || ('A' ≤ c && c ≤ 'Z') || ('0' ≤ c && c ≤ '9')

/-- ASCII lowering of one character, as JS `toLowerCase` acts on the
alphanumeric strings that reach it in `isValidCustomCode`. -/
def jsToLowerChar (c : Char) : Char :=
  if 'A' ≤ c && c ≤ 'Z' then Char.ofNat (c.toNat + 32) else c

/-- Reserved words of `ShortCodeGenerator.isValidCustomCode`. -/
def reservedWords : List Str :=
  ["api".toList, "admin".toList, "www".toList, "app".toList,
   "dashboard".toList, "health".toList, "status".toList]

/-- Embedding of `ShortCodeGenerator.isValidCustomCode`: the `!code` guard,
the length window [3, 20], the regex `[a-zA-Z0-9]+` test, and the
reserved-word check on the lowercased code. -/
def ShortCodeGenerator.isValidCustomCode (code : Str) : Bool :=
  if code.isEmpty then false
  else if code.length < 3 || code.length > ShortCodeGenerator.CUSTOM_CODE_MAX_LENGTH then false
  else if !(!code.isEmpty && code.all isAlphanumAscii) then false
  else if reservedWords.contains (code.map jsToLowerChar) then false
  else true

/-- A row of the `urls` table (types/index.ts `Url`): id is assigned by the
store (SERIAL), createdAt by the store's clock (CURRENT_TIMESTAMP, modelled
as a Nat tick). -/
structure Url where
  id : Nat
  originalUrl : Str
  shortCode : Str
  createdAt : Nat
  clickCount : Nat
deriving DecidableEq, Repr

/-- State of the store: the table rows in insertion order, the next SERIAL
id, and the clock used for `created_at`. -/
structure DBState where
  rows : List Url
  nextId : Nat
  now : Nat
deriving DecidableEq, Repr

/-- The empty store right after `initDatabase` created the table. -/
def DBState.init : DBState := ⟨[], 1, 0⟩

/-- Embedding of `Database.getUrlByShortCode` (SELECT * FROM urls WHERE
short_code = $1, first row or null). -/
def Database.getUrlByShortCode (s : DBState) (shortCode : Str) : Option Url :=
  s.rows.find? (fun r => r.shortCode == shortCode)

/-- Embedding of `Database.createUrl` (INSERT ... RETURNING). The UNIQUE
constraint on short_code makes the insert fail (a thrown pg error, modelled
as `Except.error`) when a row with the code already exists; otherwise the
store assigns id and created_at and appends the row. -/
def Database.createUrl (s : DBState) (originalUrl shortCode : Str) (clickCount : Nat) :
    Except Unit (Url × DBState) :=
  if s.rows.any (fun r => r.shortCode == shortCode) then
    .error ()
  else
    let u : Url := ⟨s.nextId, originalUrl, shortCode, s.now, clickCount⟩
    .ok (u, ⟨s.rows ++ [u], s.nextId + 1, s.now + 1⟩)

/-- Row update performed by the SQL UPDATE of `incrementClickCount` on one row. -/
def bumpIfMatch (shortCode : Str) (r : Url) : Url :=
  if r.shortCode == shortCode then { r with clickCount := r.clickCount + 1 } else r

/-- Embedding of `Database.incrementClickCount` (UPDATE urls SET click_count =
click_count + 1 WHERE short_code = $1 RETURNING ...): every matching row is
bumped by the single atomic statement, and the returned row (first of
RETURNING) or null is paired with the new state. -/
def Database.incrementClickCount (s : DBState) (shortCode : Str) : Option Url × DBState :=
  let rows := s.rows.map (bumpIfMatch shortCode)
  (rows.find? (fun r => r.shortCode == shortCode), ⟨rows, s.nextId, s.now⟩)

/-- Embedding of `Database.deleteUrl` (DELETE FROM urls WHERE short_code = $1;
true iff rowCount > 0). -/
def Database.deleteUrl (s : DBState) (shortCode : Str) : Bool × DBState :=
  (s.rows.any (fun r => r.shortCode == shortCode),
   ⟨s.rows.filter (fun r => !(r.shortCode == shortCode)), s.nextId, s.now⟩)

/-- Ordering used by `ORDER BY created_at DESC`. -/
def createdDesc (a b : Url) : Prop := b.createdAt ≤ a.createdAt

instance : DecidableRel createdDesc := fun _ _ => Nat.decLe _ _

instance : IsTotal Url createdDesc := ⟨fun a b => Nat.le_total b.createdAt a.createdAt⟩

instance : IsTrans Url createdDesc := ⟨fun _ _ _ h h' => Nat.le_trans h' h⟩

/-- Embedding of `Database.getAllUrls(limit, offset)`: total count, then
SELECT * ORDER BY created_at DESC LIMIT $1 OFFSET $2. -/
def Database.getAllUrls (s : DBState) (limit offset : Nat) : List Url × Nat :=
  ((s.rows.insertionSort createdDesc).drop offset |>.take limit, s.rows.length)

/-- Outcome of `UrlController.createShortUrl`: 400 (missing/invalid URL or
invalid custom code), 409 (custom code taken), 500 (generation exhausted or
store failure), or 201 with the created record. -/
inductive CreateResult where
  | badRequest
  | conflict
  | serverError
  | created (u : Url)
deriving DecidableEq, Repr

/-- JS truthiness of the optional `customCode` field: present and non-empty. -/
def optTruthy (o : Option Str) : Bool :=
  match o with
  | some c => !c.isEmpty
  | none => false

/-- The `maxAttempts` bound of the generation loop in `createShortUrl`. -/
def maxAttempts : Nat := 10

/-- The do-while generation loop of `createShortUrl` (part_000 lines 427-436):
`gen i` is the code returned by the i-th call of `ShortCodeGenerator.generate()`;
the loop returns the first code with no existing row, or `none` once the
attempt counter reaches the bound (`fuel` is the number of generations left). -/
def findFreshCode (s : DBState) (gen : Nat → Str) : Nat → Nat → Option Str
  | _, 0 => none
  | i, fuel + 1 =>
    let c := gen i
    if (Database.getUrlByShortCode s c).isSome then findFreshCode s gen (i + 1) fuel
    else some c

/-- Embedding of `UrlController.createShortUrl` (part_000 lines 378-475):
validate the URL, resolve the code (custom branch with its validity and
conflict checks, or the bounded generation loop), then insert with
clickCount 0. The catch-all maps a store failure to 500. -/
def UrlController.createShortUrl (parse : Str → Option UrlParts) (gen : Nat → Str)
    (s : DBState) (url : Str) (customCode : Option Str) : CreateResult × DBState :=
  if url.isEmpty then (.badRequest, s)
  else if !(UrlValidator.isValidUrl parse url) then (.badRequest, s)
  else
    let normalizedUrl := UrlValidator.normalizeUrl parse url
    if optTruthy customCode then
      let c := customCode.getD []
      if !(ShortCodeGenerator.isValidCustomCode c) then (.badRequest, s)
      else
        match Database.getUrlByShortCode s c with
        | some _ => (.conflict, s)
        | none =>
          match Database.createUrl s normalizedUrl c 0 with
          | .ok (u, s') => (.created u, s')
          | .error _ => (.serverError, s)
    else
      match findFreshCode s gen 0 maxAttempts with
      | none => (.serverError, s)
      | some code =>
        match Database.createUrl s normalizedUrl code 0 with
        | .ok (u, s') => (.created u, s')
        | .error _ => (.serverError, s)

/-- Outcome of `UrlController.redirectToOriginalUrl`: 400 (missing code),
404 (HTML page), or a 301 redirect to the stored original URL. -/
inductive RedirectResult where
  | badRequest
  | notFoundHtml
  | moved (location : Str)
deriving DecidableEq, Repr

/-- Embedding of `UrlController.redirectToOriginalUrl` (part_000 lines 477-531):
look up the code; on a hit, increment the click count and redirect 301 to
the record's originalUrl; on a miss, serve the 404 page. -/
def UrlController.redirectToOriginalUrl (s : DBState) (shortCode : Str) :
    RedirectResult × DBState :=
  if shortCode.isEmpty then (.badRequest, s)
  else
    match Database.getUrlByShortCode s shortCode with
    | none => (.notFoundHtml, s)
    | some u => (.moved u.originalUrl, (Database.incrementClickCount s shortCode).2)

/-- Pagination block of the `GET /api/urls` response. -/
structure PaginationInfo where
  page : Nat
  limit : Nat
  total : Nat
  totalPages : Nat
  hasNext : Bool
  hasPrev : Bool
deriving DecidableEq, Repr

/-- Body of the `GET /api/urls` response: the page of rows and pagination. -/
structure UrlListResult where
  data : List Url
  pagination : PaginationInfo
deriving DecidableEq, Repr

/-- Nat rendering of `Math.ceil(a / b)` for b ≥ 1 (the float division is
exact over the integer ranges involved). -/
def jsCeilDiv (a b : Nat) : Nat := (a + b - 1) / b

/-- Embedding of `UrlController.getAllUrls` (part_000 lines 533-559): the
`parseInt(...) || default` coercions (0 and NaN fall back to 1 and 50),
offset = (page - 1) * limit, the store query, and the pagination fields. -/
def UrlController.getAllUrls (s : DBState) (page limit : Nat) : UrlListResult :=
  let page := if page = 0 then 1 else page
  let limit := if limit = 0 then 50 else limit
  let offset := (page - 1) * limit
  let q := Database.getAllUrls s limit offset
  { data := q.1,
    pagination :=
      { page := page, limit := limit, total := q.2,
        totalPages := jsCeilDiv q.2 limit,
        hasNext := decide (page * limit < q.2),
        hasPrev := decide (1 < page) } }

/-- One incoming request that can touch the store: a shorten request (with
its abstract parser and random codes), a redirect, a delete, or a read-only
request (stats, list). -/
inductive ReqOp where
  | shorten (parse : Str → Option UrlParts) (gen : Nat → Str) (url : Str) (customCode : Option Str)
  | redirect (code : Str)
  | delete (code : Str)
  | stats (code : Str)
  | list (page limit : Nat)

/-- Effect of one request on the store, per the controller code: stats and
list only read. -/
def applyOp (s : DBState) : ReqOp → DBState
  | .shorten parse gen url customCode => (UrlController.createShortUrl parse gen s url customCode).2
  | .redirect code => (UrlController.redirectToOriginalUrl s code).2
  | .delete code => (Database.deleteUrl s code).2
  | .stats _ => s
  | .list _ _ => s

/-- Store state after a sequence of requests hits the freshly initialised
database. -/
def runOps (ops : List ReqOp) : DBState :=
  ops.foldl applyOp DBState.init

/-- Character class of the claimed URL-safe alphabet: upper-case letters,
lower-case letters, digits, hyphen, underscore. -/
def isUrlSafeChar (c : Char) : Bool :=
  c.isUpper || c.isLower || c.isDigit || c == '-' || c == '_'

/-- C4: `isValidCustomCode(code)` is true iff the length of `code` is between
3 and 20 inclusive, every character is alphanumeric (the regex
`[A-Za-z0-9]+`, no hyphen or underscore), and the lowercased form is not one
of the exact reserved words; in particular `apptest` (which merely contains
the reserved word `app`) is accepted while `api` is rejected. -/
theorem isValidCustomCode_iff (code : Str) :
    (ShortCodeGenerator.isValidCustomCode code = true ↔
      (3 ≤ code.length ∧ code.length ≤ 20 ∧
       (∀ c ∈ code, isAlphanumAscii c = true) ∧
       code.map jsToLowerChar ∉ reservedWords)) ∧
    ShortCodeGenerator.isValidCustomCode ("apptest".toList) = true ∧
    ShortCodeGenerator.isValidCustomCode ("api".toList) = false := by
  refine ⟨?_, by decide, by decide⟩
  unfold ShortCodeGenerator.isValidCustomCode
  split_ifs with h1 h2 h3 h4
  all_goals
    simp_all [ShortCodeGenerator.CUSTOM_CODE_MAX_LENGTH, List.isEmpty_iff,
      List.all_eq_true, not_or, List.length_eq_zero]
  all_goals omega

/-- C5: `generate(n)` returns a string of length exactly n, all of whose
characters come from the 64-character URL-safe alphabet (upper, lower,
digits, hyphen, underscore); `generate(0)` is the empty string and the
default length is 6. -/
theorem generate_spec (rnd : Nat → Fin 64) (n : Nat) :
    (ShortCodeGenerator.generate rnd n).length = n ∧
    (∀ c ∈ ShortCodeGenerator.generate rnd n, isUrlSafeChar c = true) ∧
    urlAlphabet.length = 64 ∧
    ShortCodeGenerator.generate rnd 0 = [] ∧
    ShortCodeGenerator.DEFAULT_LENGTH = 6 ∧
    ShortCodeGenerator.generateDefault rnd = ShortCodeGenerator.generate rnd 6 := by
  refine ⟨?_, ?_, by decide, by simp [ShortCodeGenerator.generate, nanoid], by decide, rfl⟩
  · simp [ShortCodeGenerator.generate, nanoid]
  · intro c hc
    simp only [ShortCodeGenerator.generate, nanoid, List.mem_map, List.mem_range] at hc
    obtain ⟨i, -, rfl⟩ := hc
    have halpha : ∀ c ∈ urlAlphabet, isUrlSafeChar c = true := by decide
    exact halpha _ (List.get_mem _ _ _)

/-- Witness for C4 at the concrete code `hello7`. -/
theorem isValidCustomCode_iff_witness :
    ShortCodeGenerator.isValidCustomCode ("hello7".toList) = true :=
  (isValidCustomCode_iff ("hello7".toList)).1.mpr
    ⟨by decide, by decide, by decide, by decide⟩

/-- Witness for C5 at a concrete random source and length. -/
theorem generate_spec_witness :
    (ShortCodeGenerator.generate (fun _ => (⟨0, by decide⟩ : Fin 64)) 3).length = 3 ∧
    isUrlSafeChar 'u' = true :=
  ⟨(generate_spec (fun _ => (⟨0, by decide⟩ : Fin 64)) 3).1,
   (generate_spec (fun _ => (⟨0, by decide⟩ : Fin 64)) 3).2.1 'u' (by decide)⟩

/-- Stripping one trailing slash from a string that ends in a slash leaves
everything before that slash, including any earlier slash. -/
theorem stripTrailingSlash_concat_slash (t : Str) :
    stripTrailingSlash (t ++ ['/']) = t := by
  simp [stripTrailingSlash, List.getLast?_concat, List.dropLast_concat]

/-- Stripping is the identity when the string does not end in a slash. -/
theorem stripTrailingSlash_of_not_slash (s : Str) (h : s.getLast? ≠ some '/') :
    stripTrailingSlash s = s := by
  unfold stripTrailingSlash
  cases hl : s.getLast? with
  | none => rfl
  | some c =>
    have hc : c ≠ '/' := fun hc => h (by rw [hl, hc])
    simp [hc]

/-- C6: `normalizeUrl(input)` returns the canonical serialisation of the
parsed URL with exactly one trailing slash stripped (a second trailing
slash is kept), and returns the input unchanged when parsing fails; the
function is total, so it never throws. -/
theorem normalizeUrl_spec (parse : Str → Option UrlParts) (url : Str) :
    (parse url = none → UrlValidator.normalizeUrl parse url = url) ∧
    (∀ u, parse url = some u → u.toStr.getLast? ≠ some '/' →
      UrlValidator.normalizeUrl parse url = u.toStr) ∧
    (∀ u t, parse url = some u → u.toStr = t ++ ['/'] →
      UrlValidator.normalizeUrl parse url = t) := by
  refine ⟨fun h => ?_, fun u hu hns => ?_, fun u t hu ht => ?_⟩
  · simp [UrlValidator.normalizeUrl, h]
  · simp [UrlValidator.normalizeUrl, hu, stripTrailingSlash_of_not_slash _ hns]
  · simp [UrlValidator.normalizeUrl, hu, ht, stripTrailingSlash_concat_slash]

/-- Witness for C6: a URL serialising to `http://a.com//` is normalised to
`http://a.com/` (one slash stripped, the second kept), and an unparsable
input comes back unchanged. -/
theorem normalizeUrl_spec_witness :
    UrlValidator.normalizeUrl
      (fun _ => some ⟨"http".toList, "a.com".toList, "http://a.com//".toList⟩)
      ("http://a.com//".toList) = "http://a.com/".toList ∧
    UrlValidator.normalizeUrl (fun _ => none) ("notaurl".toList) = "notaurl".toList :=
  ⟨(normalizeUrl_spec
      (fun _ => some ⟨"http".toList, "a.com".toList, "http://a.com//".toList⟩)
      ("http://a.com//".toList)).2.2 _ ("http://a.com/".toList) rfl (by decide),
   (normalizeUrl_spec (fun _ => none) ("notaurl".toList)).1 rfl⟩


/-- C1: `isValidUrl(s)` returns true iff s is non-empty and parses as an
absolute URL whose scheme is http or https and whose host is not localhost,
not 127.0.0.1, and does not start with 192.168., 10. or 172.; the empty
string and unparsable input give false, and the function is total (no
exception escapes). -/
theorem isValidUrl_iff (parse : Str → Option UrlParts) (url : Str) :
    UrlValidator.isValidUrl parse url = true ↔
      (url ≠ [] ∧ ∃ u, parse url = some u ∧
        (u.scheme = "http".toList ∨ u.scheme = "https".toList) ∧
        u.hostname ≠ "localhost".toList ∧
        u.hostname ≠ "127.0.0.1".toList ∧
        "192.168.".toList.isPrefixOf u.hostname = false ∧
        "10.".toList.isPrefixOf u.hostname = false ∧
        "172.".toList.isPrefixOf u.hostname = false) := by
  unfold UrlValidator.isValidUrl isURLHttpOk hostBlocked
  cases hp : parse url with
  | none => simp [List.isEmpty_iff]
  | some u =>
    by_cases hne : url = []
    · simp [hne, List.isEmpty_iff]
    · simp only [List.isEmpty_iff, hne, if_false, Option.some.injEq]
      split_ifs with hs
      · simp only [Bool.not_eq_true', Bool.or_eq_false_iff, beq_eq_false_iff_ne] at hs
        constructor
        · intro h; exact absurd h (by simp)
        · rintro ⟨-, u', hu, hsch, -⟩
          subst hu
          rcases hsch with h | h <;> simp [h] at hs
      · have hs' : (u.scheme == "http".toList || u.scheme == "https".toList) = true := by
          revert hs; cases h : (u.scheme == "http".toList || u.scheme == "https".toList) <;> simp
        simp only [Bool.not_eq_true', Bool.or_eq_false_iff, beq_eq_false_iff_ne,
          Bool.not_eq_false]
        constructor
        · rintro ⟨⟨⟨⟨h1, h2⟩, h3⟩, h4⟩, h5⟩
          refine ⟨hne, u, rfl, ?_, h1, h2, h3, h4, h5⟩
          rcases Bool.or_eq_true_iff.mp hs' with h | h
          · exact Or.inl (by simpa using h)
          · exact Or.inr (by simpa using h)
        · rintro ⟨-, u', hu, -, h1, h2, h3, h4, h5⟩
          subst hu
          exact ⟨⟨⟨⟨h1, h2⟩, h3⟩, h4⟩, h5⟩

/-- Witness for C1: a concrete public https URL is accepted. -/
theorem isValidUrl_iff_witness :
    UrlValidator.isValidUrl
      (fun _ => some ⟨"https".toList, "example.com".toList, "https://example.com/".toList⟩)
      ("https://example.com".toList) = true :=
  (isValidUrl_iff
      (fun _ => some ⟨"https".toList, "example.com".toList, "https://example.com/".toList⟩)
      ("https://example.com".toList)).mpr
    ⟨by decide,
     ⟨"https".toList, "example.com".toList, "https://example.com/".toList⟩, rfl,
     Or.inr rfl, by decide, by decide, by decide, by decide, by decide⟩

/-- Finding a row by code after the UPDATE of `incrementClickCount` yields
the bumped version of the row found before the UPDATE. -/
theorem find?_map_bumpIfMatch (code : Str) (l : List Url) :
    (l.map (bumpIfMatch code)).find? (fun r => r.shortCode == code)
      = (l.find? (fun r => r.shortCode == code)).map
          (fun u => { u with clickCount := u.clickCount + 1 }) := by
  induction l with
  | nil => rfl
  | cons r l ih =>
    by_cases h : r.shortCode == code
    · simp [bumpIfMatch, h, List.find?_cons]
    · simp only [Bool.not_eq_true] at h
      simp [bumpIfMatch, h, List.find?_cons, ih]

/-- A row whose code differs from the filter is untouched by the UPDATE. -/
theorem bumpIfMatch_of_ne (code : Str) (r : Url) (h : r.shortCode ≠ code) :
    bumpIfMatch code r = r := by
  simp [bumpIfMatch, h]

/-- C7: when a record with the code exists, `incrementClickCount` returns it
with clickCount increased by exactly 1 and id, originalUrl, shortCode and
createdAt unchanged; the table keeps its length, rows with a different code
pass through unmodified in both directions, and a second sequential call
returns the record with clickCount increased by exactly 2. When no record
has the code, the result is null and the store is unchanged. -/
theorem incrementClickCount_spec (s : DBState) (code : Str) :
    (∀ u, Database.getUrlByShortCode s code = some u →
      (Database.incrementClickCount s code).1
          = some { u with clickCount := u.clickCount + 1 } ∧
      (Database.incrementClickCount s code).2.rows.length = s.rows.length ∧
      (∀ r ∈ s.rows, r.shortCode ≠ code →
        r ∈ (Database.incrementClickCount s code).2.rows) ∧
      (∀ r ∈ (Database.incrementClickCount s code).2.rows, r.shortCode ≠ code →
        r ∈ s.rows) ∧
      (Database.incrementClickCount (Database.incrementClickCount s code).2 code).1
          = some { u with clickCount := u.clickCount + 2 }) ∧
    (Database.getUrlByShortCode s code = none →
      (Database.incrementClickCount s code).1 = none ∧
      (Database.incrementClickCount s code).2 = s) := by
  constructor
  · intro u hu
    refine ⟨?_, by simp [Database.incrementClickCount], ?_, ?_, ?_⟩
    · have hu' : s.rows.find? (fun r => r.shortCode == code) = some u := hu
      have hfst : (Database.incrementClickCount s code).1
          = (s.rows.map (bumpIfMatch code)).find? (fun r => r.shortCode == code) := rfl
      rw [hfst, find?_map_bumpIfMatch, hu']
      rfl
    · intro r hr hne
      simp only [Database.incrementClickCount, List.mem_map]
      exact ⟨r, hr, bumpIfMatch_of_ne code r hne⟩
    · intro r hr hne
      simp only [Database.incrementClickCount, List.mem_map] at hr
      obtain ⟨r', hr', heq⟩ := hr
      by_cases hm : r'.shortCode = code
      · exfalso
        apply hne
        have : (bumpIfMatch code r').shortCode = code := by simp [bumpIfMatch, hm]
        rw [heq] at this
        exact this
      · rw [bumpIfMatch_of_ne code r' hm] at heq
        exact heq ▸ hr'
    · simp only [Database.incrementClickCount, Database.getUrlByShortCode] at hu ⊢
      rw [find?_map_bumpIfMatch, find?_map_bumpIfMatch, hu]
      rfl
  · intro hu
    have hnone : s.rows.find? (fun r => r.shortCode == code) = none := hu
    have hall := List.find?_eq_none.mp hnone
    have hmap : s.rows.map (bumpIfMatch code) = s.rows := by
      have hcongr : ∀ r ∈ s.rows, bumpIfMatch code r = id r := by
        intro r hr
        apply bumpIfMatch_of_ne
        have := hall r hr
        simpa using this
      rw [List.map_congr_left hcongr, List.map_id]
    refine ⟨?_, ?_⟩
    · simp [Database.incrementClickCount, hmap, hnone]
    · simp [Database.incrementClickCount, hmap]

/-- Witness for C7 at a concrete one-row store. -/
theorem incrementClickCount_spec_witness :
    (Database.incrementClickCount
        ⟨[⟨1, "http://e.com".toList, "abc".toList, 0, 0⟩], 2, 1⟩ ("abc".toList)).1
      = some ⟨1, "http://e.com".toList, "abc".toList, 0, 1⟩ :=
  ((incrementClickCount_spec
      ⟨[⟨1, "http://e.com".toList, "abc".toList, 0, 0⟩], 2, 1⟩ ("abc".toList)).1
    ⟨1, "http://e.com".toList, "abc".toList, 0, 0⟩ (by decide)).1

/-- The generation loop returns `none` exactly when each of the `fuel` codes
it could draw collides with an existing row. -/
theorem findFreshCode_eq_none_iff (s : DBState) (gen : Nat → Str) :
    ∀ fuel i, (findFreshCode s gen i fuel = none ↔
      ∀ k < fuel, (Database.getUrlByShortCode s (gen (i + k))).isSome = true) := by
  intro fuel
  induction fuel with
  | zero => simp [findFreshCode]
  | succ fuel ih =>
    intro i
    by_cases h : (Database.getUrlByShortCode s (gen i)).isSome = true
    · rw [show findFreshCode s gen i (fuel + 1) = findFreshCode s gen (i + 1) fuel by
        simp [findFreshCode, h]]
      rw [ih (i + 1)]
      constructor
      · intro hall k hk
        cases k with
        | zero => simpa using h
        | succ k => have := hall k (by omega); simpa [Nat.add_right_comm] using this
      · intro hall k hk
        have := hall (k + 1) (by omega)
        simpa [Nat.add_right_comm] using this
    · rw [show findFreshCode s gen i (fuel + 1) = some (gen i) by
        simp [findFreshCode, h]]
      simp only [reduceCtorEq, false_iff, not_forall]
      exact ⟨0, by omega, by simpa using h⟩

/-- A code returned by the generation loop has no existing row. -/
theorem findFreshCode_some_fresh (s : DBState) (gen : Nat → Str) :
    ∀ fuel i c, findFreshCode s gen i fuel = some c →
      Database.getUrlByShortCode s c = none := by
  intro fuel
  induction fuel with
  | zero => simp [findFreshCode]
  | succ fuel ih =>
    intro i c h
    by_cases hi : (Database.getUrlByShortCode s (gen i)).isSome = true
    · rw [show findFreshCode s gen i (fuel + 1) = findFreshCode s gen (i + 1) fuel by
        simp [findFreshCode, hi]] at h
      exact ih (i + 1) c h
    · rw [show findFreshCode s gen i (fuel + 1) = some (gen i) by
        simp [findFreshCode, hi]] at h
      obtain rfl : gen i = c := by simpa using h
      cases hopt : Database.getUrlByShortCode s (gen i) with
      | none => rfl
      | some u => exact absurd (by simp [hopt]) hi

/-- A string accepted by the validator is non-empty. -/
theorem isValidUrl_not_empty (parse : Str → Option UrlParts) (url : Str)
    (h : UrlValidator.isValidUrl parse url = true) : url.isEmpty = false := by
  cases he : url.isEmpty with
  | false => rfl
  | true => simp [UrlValidator.isValidUrl, he] at h

/-- A code with no existing row passes the UNIQUE pre-check of the INSERT. -/
theorem createUrl_of_fresh (s : DBState) (o c : Str) (k : Nat)
    (h : Database.getUrlByShortCode s c = none) :
    Database.createUrl s o c k
      = .ok (⟨s.nextId, o, c, s.now, k⟩, ⟨s.rows ++ [⟨s.nextId, o, c, s.now, k⟩], s.nextId + 1, s.now + 1⟩) := by
  have hany : s.rows.any (fun r => r.shortCode == c) = false := by
    rw [Bool.eq_false_iff]
    intro hc
    obtain ⟨r, hr, hrc⟩ := List.any_eq_true.mp hc
    have := List.find?_eq_none.mp h r hr
    exact this hrc
  simp [Database.createUrl, hany]

/-- C2: with no custom code, generation is retried against the store up to
the fixed bound maxAttempts = 10; the request ends in the 500
resource-exhaustion error exactly when every one of the 10 generated codes
collides with an existing record, and in that case the store is unchanged
(nothing is persisted). -/
theorem createShortUrl_exhaustion_spec (parse : Str → Option UrlParts) (gen : Nat → Str)
    (s : DBState) (url : Str) (hvalid : UrlValidator.isValidUrl parse url = true) :
    maxAttempts = 10 ∧
    ((UrlController.createShortUrl parse gen s url none).1 = CreateResult.serverError ↔
      ∀ i < maxAttempts, (Database.getUrlByShortCode s (gen i)).isSome = true) ∧
    ((∀ i < maxAttempts, (Database.getUrlByShortCode s (gen i)).isSome = true) →
      UrlController.createShortUrl parse gen s url none = (CreateResult.serverError, s)) := by
  have hemp := isValidUrl_not_empty parse url hvalid
  have hiff := findFreshCode_eq_none_iff s gen maxAttempts 0
  simp only [Nat.zero_add] at hiff
  have hred : UrlController.createShortUrl parse gen s url none
      = match findFreshCode s gen 0 maxAttempts with
        | none => (.serverError, s)
        | some code =>
          match Database.createUrl s (UrlValidator.normalizeUrl parse url) code 0 with
          | .ok (u, s') => (.created u, s')
          | .error _ => (.serverError, s) := by
    simp [UrlController.createShortUrl, hemp, hvalid, optTruthy]
  refine ⟨rfl, ?_, ?_⟩
  · cases hfc : findFreshCode s gen 0 maxAttempts with
    | none =>
      rw [hred, hfc]
      simpa using hiff.mp hfc
    | some c =>
      have hcreate := createUrl_of_fresh s (UrlValidator.normalizeUrl parse url) c 0
        (findFreshCode_some_fresh s gen maxAttempts 0 c hfc)
      rw [hred, hfc]
      simp only [hcreate, reduceCtorEq, false_iff, not_forall]
      have : ¬ findFreshCode s gen 0 maxAttempts = none := by simp [hfc]
      rw [hiff] at this
      push_neg at this
      obtain ⟨i, hi, hns⟩ := this
      exact ⟨i, hi, hns⟩
  · intro hall
    have hfc : findFreshCode s gen 0 maxAttempts = none := hiff.mpr hall
    rw [hred, hfc]

/-- Witness for C2: with a constant generator whose code is already taken,
every attempt collides and the request fails with 500, leaving the one-row
store unchanged. -/
theorem createShortUrl_exhaustion_spec_witness :
    UrlController.createShortUrl
        (fun _ => some ⟨"http".toList, "e.com".toList, "http://e.com/".toList⟩)
        (fun _ => "abc123".toList)
        ⟨[⟨1, "http://x.com".toList, "abc123".toList, 0, 0⟩], 2, 1⟩
        ("http://e.com".toList) none
      = (CreateResult.serverError,
         ⟨[⟨1, "http://x.com".toList, "abc123".toList, 0, 0⟩], 2, 1⟩) :=
  (createShortUrl_exhaustion_spec
      (fun _ => some ⟨"http".toList, "e.com".toList, "http://e.com/".toList⟩)
      (fun _ => "abc123".toList)
      ⟨[⟨1, "http://x.com".toList, "abc123".toList, 0, 0⟩], 2, 1⟩
      ("http://e.com".toList) (by decide)).2.2 (fun i _ => by decide)

/-- Counterexample for C3: the empty custom code fails validation
(`isValidCustomCode("") = false`), yet the operation does not halt with an
invalid-input error and it writes to the store: JS truthiness makes
`if (customCode)` treat the empty string as absent, so a code is generated
and a record is persisted. -/
theorem createShortUrl_empty_custom_counterexample :
    ShortCodeGenerator.isValidCustomCode [] = false ∧
    (UrlController.createShortUrl
        (fun _ => some ⟨"http".toList, "e.com".toList, "http://e.com/".toList⟩)
        (fun _ => "abc123".toList) DBState.init ("http://e.com".toList) (some [])).1
      ≠ CreateResult.badRequest ∧
    (UrlController.createShortUrl
        (fun _ => some ⟨"http".toList, "e.com".toList, "http://e.com/".toList⟩)
        (fun _ => "abc123".toList) DBState.init ("http://e.com".toList) (some [])).2
      ≠ DBState.init := by
  decide

/-- C3 (amended): for a non-empty supplied custom code, an invalid code
halts the operation with the 400 invalid-input error before any store
write, and a valid code that already has a record halts with the 409
conflict error, leaving the store (and thus the pre-existing record)
unchanged. An empty custom code is treated as absent by JS truthiness. -/
theorem createShortUrl_custom_code_spec (parse : Str → Option UrlParts) (gen : Nat → Str)
    (s : DBState) (url : Str) (c : Str) (hvalid : UrlValidator.isValidUrl parse url = true)
    (hne : c ≠ []) :
    (ShortCodeGenerator.isValidCustomCode c = false →
      UrlController.createShortUrl parse gen s url (some c) = (CreateResult.badRequest, s)) ∧
    (ShortCodeGenerator.isValidCustomCode c = true →
      ∀ u, Database.getUrlByShortCode s c = some u →
        UrlController.createShortUrl parse gen s url (some c) = (CreateResult.conflict, s)) := by
  have hemp := isValidUrl_not_empty parse url hvalid
  have htr : optTruthy (some c) = true := by
    simp [optTruthy, List.isEmpty_iff, hne]
  constructor
  · intro hinv
    simp [UrlController.createShortUrl, hemp, hvalid, htr, hinv]
  · intro hv u hu
    simp [UrlController.createShortUrl, hemp, hvalid, htr, hv, hu]

/-- Witness for C3 (amended): requesting the taken custom code `github`
yields the conflict result and the store is untouched. -/
theorem createShortUrl_custom_code_spec_witness :
    UrlController.createShortUrl
        (fun _ => some ⟨"https".toList, "e.com".toList, "https://e.com/".toList⟩)
        (fun _ => "abc123".toList)
        ⟨[⟨1, "https://x.com".toList, "github".toList, 0, 0⟩], 2, 1⟩
        ("https://e.com".toList) (some ("github".toList))
      = (CreateResult.conflict,
         ⟨[⟨1, "https://x.com".toList, "github".toList, 0, 0⟩], 2, 1⟩) :=
  (createShortUrl_custom_code_spec
      (fun _ => some ⟨"https".toList, "e.com".toList, "https://e.com/".toList⟩)
      (fun _ => "abc123".toList)
      ⟨[⟨1, "https://x.com".toList, "github".toList, 0, 0⟩], 2, 1⟩
      ("https://e.com".toList) ("github".toList) (by decide) (by decide)).2
    (by decide) ⟨1, "https://x.com".toList, "github".toList, 0, 0⟩ (by decide)

/-- C9: for GET /:shortCode with a non-empty code: when a record exists the
response is a 301 redirect to its originalUrl and that record's click
count is incremented by exactly 1 (a freshly created record, clickCount 0,
reads back as 1 via the lookup the stats endpoint uses); when no record
exists the response is the 404 HTML page and the store is unchanged. -/
theorem redirectToOriginalUrl_spec (s : DBState) (code : Str) (hne : code ≠ []) :
    (∀ u, Database.getUrlByShortCode s code = some u →
      (UrlController.redirectToOriginalUrl s code).1 = RedirectResult.moved u.originalUrl ∧
      Database.getUrlByShortCode (UrlController.redirectToOriginalUrl s code).2 code
        = some { u with clickCount := u.clickCount + 1 } ∧
      (u.clickCount = 0 →
        Database.getUrlByShortCode (UrlController.redirectToOriginalUrl s code).2 code
          = some { u with clickCount := 1 })) ∧
    (Database.getUrlByShortCode s code = none →
      UrlController.redirectToOriginalUrl s code = (RedirectResult.notFoundHtml, s)) := by
  have hemp : code.isEmpty = false := by simp [List.isEmpty_iff, hne]
  constructor
  · intro u hu
    have hred : UrlController.redirectToOriginalUrl s code
        = (RedirectResult.moved u.originalUrl, (Database.incrementClickCount s code).2) := by
      simp [UrlController.redirectToOriginalUrl, hemp, hu]
    have hafter : Database.getUrlByShortCode (Database.incrementClickCount s code).2 code
        = some { u with clickCount := u.clickCount + 1 } := by
      have hu' : s.rows.find? (fun r => r.shortCode == code) = some u := hu
      have hstep : Database.getUrlByShortCode (Database.incrementClickCount s code).2 code
          = (s.rows.map (bumpIfMatch code)).find? (fun r => r.shortCode == code) := rfl
      rw [hstep, find?_map_bumpIfMatch, hu']
      rfl
    refine ⟨by rw [hred], by rw [hred]; exact hafter, fun h0 => ?_⟩
    have h2 := hafter
    rw [h0] at h2
    rw [hred]
    simpa using h2
  · intro hnone
    simp [UrlController.redirectToOriginalUrl, hemp, hnone]

/-- Witness for C9 at a concrete one-row store with clickCount 0. -/
theorem redirectToOriginalUrl_spec_witness :
    (UrlController.redirectToOriginalUrl
        ⟨[⟨1, "http://e.com".toList, "abc".toList, 0, 0⟩], 2, 1⟩ ("abc".toList)).1
      = RedirectResult.moved ("http://e.com".toList) ∧
    Database.getUrlByShortCode
        (UrlController.redirectToOriginalUrl
          ⟨[⟨1, "http://e.com".toList, "abc".toList, 0, 0⟩], 2, 1⟩ ("abc".toList)).2
        ("abc".toList)
      = some ⟨1, "http://e.com".toList, "abc".toList, 0, 1⟩ :=
  ⟨((redirectToOriginalUrl_spec
      ⟨[⟨1, "http://e.com".toList, "abc".toList, 0, 0⟩], 2, 1⟩ ("abc".toList)
      (by decide)).1 ⟨1, "http://e.com".toList, "abc".toList, 0, 0⟩ (by decide)).1,
   ((redirectToOriginalUrl_spec
      ⟨[⟨1, "http://e.com".toList, "abc".toList, 0, 0⟩], 2, 1⟩ ("abc".toList)
      (by decide)).1 ⟨1, "http://e.com".toList, "abc".toList, 0, 0⟩ (by decide)).2.2 rfl⟩

/-- The Nat rendering of `Math.ceil` agrees with the mathematical ceiling of
the rational quotient whenever the divisor is at least 1. -/
theorem jsCeilDiv_eq_ceil (a b : ℕ) (hb : 1 ≤ b) :
    jsCeilDiv a b = Nat.ceil ((a : ℚ) / (b : ℚ)) := by
  unfold jsCeilDiv
  rcases Nat.eq_zero_or_pos a with rfl | ha
  · have h0 : (b - 1) / b = 0 := Nat.div_eq_of_lt (by omega)
    simp [h0]
  · set q := (a + b - 1) / b with hq_def
    set r := (a + b - 1) % b with hr_def
    have hq : b * q + r = a + b - 1 := Nat.div_add_mod _ _
    have hr : r < b := Nat.mod_lt _ (by omega)
    have hub : a ≤ b * q := by
      generalize h : b * q = m at hq ⊢
      omega
    have hlt : b * q < a + b := by
      generalize h : b * q = m at hq ⊢
      omega
    have hq1 : 1 ≤ q := by
      by_contra h
      push_neg at h
      have hz : q = 0 := Nat.lt_one_iff.mp h
      rw [hz, Nat.mul_zero] at hq
      omega
    symm
    rw [Nat.ceil_eq_iff (by omega)]
    have hbq : (0 : ℚ) < (b : ℚ) := by positivity
    constructor
    · rw [lt_div_iff₀ hbq]
      have hcast : ((q - 1 : ℕ) : ℚ) = (q : ℚ) - 1 := by
        push_cast [Nat.cast_sub hq1]
        ring
      rw [hcast]
      have hltq : ((b : ℚ)) * (q : ℚ) < (a : ℚ) + b := by exact_mod_cast hlt
      nlinarith
    · rw [div_le_iff₀ hbq]
      have hle : (a : ℚ) ≤ (b : ℚ) * (q : ℚ) := by exact_mod_cast hub
      nlinarith

/-- C10: for page ≥ 1 and limit ≥ 1, GET /api/urls queries the store with
offset (page - 1) * limit over the rows ordered newest-first, returns at
most limit records in newest-first order, and the pagination fields satisfy
totalPages = ceil(total / limit), hasNext = (page * limit < total) and
hasPrev = (page > 1), with total the full record count. -/
theorem getAllUrls_pagination_spec (s : DBState) (page limit : Nat)
    (hp : 1 ≤ page) (hl : 1 ≤ limit) :
    (UrlController.getAllUrls s page limit).data
        = ((s.rows.insertionSort createdDesc).drop ((page - 1) * limit)).take limit ∧
    (UrlController.getAllUrls s page limit).data.length ≤ limit ∧
    (UrlController.getAllUrls s page limit).data.Pairwise createdDesc ∧
    (UrlController.getAllUrls s page limit).pagination.total = s.rows.length ∧
    (UrlController.getAllUrls s page limit).pagination.totalPages
        = Nat.ceil ((s.rows.length : ℚ) / (limit : ℚ)) ∧
    (UrlController.getAllUrls s page limit).pagination.hasNext
        = decide (page * limit < s.rows.length) ∧
    (UrlController.getAllUrls s page limit).pagination.hasPrev = decide (1 < page) := by
  have hp0 : ¬ page = 0 := by omega
  have hl0 : ¬ limit = 0 := by omega
  have hdata : (UrlController.getAllUrls s page limit).data
      = ((s.rows.insertionSort createdDesc).drop ((page - 1) * limit)).take limit := by
    simp [UrlController.getAllUrls, Database.getAllUrls, hp0, hl0]
  refine ⟨hdata, ?_, ?_, by simp [UrlController.getAllUrls, Database.getAllUrls, hp0, hl0],
    ?_, by simp [UrlController.getAllUrls, Database.getAllUrls, hp0, hl0],
    by simp [UrlController.getAllUrls, Database.getAllUrls, hp0, hl0]⟩
  · rw [hdata]
    simp
  · rw [hdata]
    have hsorted : (s.rows.insertionSort createdDesc).Pairwise createdDesc :=
      List.sorted_insertionSort createdDesc s.rows
    have hsub : List.Sublist
        (((s.rows.insertionSort createdDesc).drop ((page - 1) * limit)).take limit)
        (s.rows.insertionSort createdDesc) :=
      (List.take_sublist _ _).trans (List.drop_sublist _ _)
    exact hsorted.sublist hsub
  · have : (UrlController.getAllUrls s page limit).pagination.totalPages
        = jsCeilDiv s.rows.length limit := by
      simp [UrlController.getAllUrls, Database.getAllUrls, hp0, hl0]
    rw [this, jsCeilDiv_eq_ceil _ _ hl]

/-- Witness for C10 at a three-row store with page 2 and limit 2. -/
theorem getAllUrls_pagination_spec_witness :
    (UrlController.getAllUrls
        ⟨[⟨1, "http://a.com".toList, "aaa".toList, 0, 0⟩,
          ⟨2, "http://b.com".toList, "bbb".toList, 1, 0⟩,
          ⟨3, "http://c.com".toList, "ccc".toList, 2, 0⟩], 4, 3⟩ 2 2).data.length ≤ 2 ∧
    (UrlController.getAllUrls
        ⟨[⟨1, "http://a.com".toList, "aaa".toList, 0, 0⟩,
          ⟨2, "http://b.com".toList, "bbb".toList, 1, 0⟩,
          ⟨3, "http://c.com".toList, "ccc".toList, 2, 0⟩], 4, 3⟩ 2 2).pagination.hasPrev
      = decide (1 < 2) :=
  ⟨(getAllUrls_pagination_spec
      ⟨[⟨1, "http://a.com".toList, "aaa".toList, 0, 0⟩,
        ⟨2, "http://b.com".toList, "bbb".toList, 1, 0⟩,
        ⟨3, "http://c.com".toList, "ccc".toList, 2, 0⟩], 4, 3⟩ 2 2
      (by decide) (by decide)).2.1,
   (getAllUrls_pagination_spec
      ⟨[⟨1, "http://a.com".toList, "aaa".toList, 0, 0⟩,
        ⟨2, "http://b.com".toList, "bbb".toList, 1, 0⟩,
        ⟨3, "http://c.com".toList, "ccc".toList, 2, 0⟩], 4, 3⟩ 2 2
      (by decide) (by decide)).2.2.2.2.2.2⟩

/-- When no row carries the code, the SQL EXISTS-style check is false. -/
theorem any_eq_false_of_find?_none (l : List Url) (c : Str)
    (h : l.find? (fun r => r.shortCode == c) = none) :
    l.any (fun r => r.shortCode == c) = false := by
  rw [Bool.eq_false_iff]
  intro hc
  obtain ⟨r, hr, hrc⟩ := List.any_eq_true.mp hc
  exact (List.find?_eq_none.mp h r hr) hrc

/-- The UPDATE of one row keeps id, shortCode, originalUrl and createdAt and
never decreases clickCount. -/
theorem bumpIfMatch_fields (code : Str) (r : Url) :
    (bumpIfMatch code r).id = r.id ∧ (bumpIfMatch code r).shortCode = r.shortCode ∧
    (bumpIfMatch code r).originalUrl = r.originalUrl ∧
    (bumpIfMatch code r).createdAt = r.createdAt ∧
    r.clickCount ≤ (bumpIfMatch code r).clickCount := by
  unfold bumpIfMatch
  split_ifs <;> simp [Nat.le_succ]

/-- A redirect either leaves the store untouched or applies the click UPDATE
to the table. -/
theorem redirect_state_cases (s : DBState) (code : Str) :
    (UrlController.redirectToOriginalUrl s code).2 = s ∨
    (UrlController.redirectToOriginalUrl s code).2
      = ⟨s.rows.map (bumpIfMatch code), s.nextId, s.now⟩ := by
  unfold UrlController.redirectToOriginalUrl
  split_ifs with h
  · exact Or.inl rfl
  · cases hf : Database.getUrlByShortCode s code with
    | none => exact Or.inl rfl
    | some u => exact Or.inr rfl

/-- A shorten request either leaves the store untouched (any failure path)
or appends exactly one record, whose code is fresh and whose clickCount is
the 0 the orchestrator passes, with id and createdAt assigned by the store. -/
theorem shorten_state_cases (parse : Str → Option UrlParts) (gen : Nat → Str)
    (s : DBState) (url : Str) (cc : Option Str) :
    (UrlController.createShortUrl parse gen s url cc).2 = s ∨
    ∃ c, s.rows.any (fun r => r.shortCode == c) = false ∧
      (UrlController.createShortUrl parse gen s url cc).2
        = ⟨s.rows ++ [⟨s.nextId, UrlValidator.normalizeUrl parse url, c, s.now, 0⟩],
           s.nextId + 1, s.now + 1⟩ := by
  by_cases hemp : url.isEmpty = true
  · exact Or.inl (by simp [UrlController.createShortUrl, hemp])
  · have hemp' : url.isEmpty = false := Bool.eq_false_iff.mpr hemp
    by_cases hval : UrlValidator.isValidUrl parse url = true
    · by_cases htr : optTruthy cc = true
      · by_cases hvc : ShortCodeGenerator.isValidCustomCode (cc.getD []) = true
        · cases hlook : Database.getUrlByShortCode s (cc.getD []) with
          | some u =>
            exact Or.inl
              (by simp [UrlController.createShortUrl, hemp', hval, htr, hvc, hlook])
          | none =>
            refine Or.inr ⟨cc.getD [], any_eq_false_of_find?_none _ _ hlook, ?_⟩
            simp [UrlController.createShortUrl, hemp', hval, htr, hvc, hlook,
              createUrl_of_fresh s _ _ 0 hlook]
        · have hvc' := Bool.eq_false_iff.mpr hvc
          exact Or.inl (by simp [UrlController.createShortUrl, hemp', hval, htr, hvc'])
      · have htr' := Bool.eq_false_iff.mpr htr
        cases hfc : findFreshCode s gen 0 maxAttempts with
        | none =>
          exact Or.inl (by simp [UrlController.createShortUrl, hemp', hval, htr', hfc])
        | some c =>
          have hfresh := findFreshCode_some_fresh s gen maxAttempts 0 c hfc
          refine Or.inr ⟨c, any_eq_false_of_find?_none _ _ hfresh, ?_⟩
          simp [UrlController.createShortUrl, hemp', hval, htr', hfc,
            createUrl_of_fresh s _ c 0 hfresh]
    · have hval' := Bool.eq_false_iff.mpr hval
      exact Or.inl (by simp [UrlController.createShortUrl, hemp', hval'])

/-- One request preserves code uniqueness and the id bound, and evolves each
row by either keeping id, shortCode, originalUrl and createdAt with a
non-decreasing clickCount, or inserting it fresh with clickCount 0 and an
id no live row had. -/
theorem applyOp_preserves (s : DBState) (op : ReqOp)
    (h1 : (s.rows.map Url.shortCode).Nodup) (h2 : ∀ r ∈ s.rows, r.id < s.nextId) :
    ((applyOp s op).rows.map Url.shortCode).Nodup ∧
    (∀ r ∈ (applyOp s op).rows, r.id < (applyOp s op).nextId) ∧
    (∀ r' ∈ (applyOp s op).rows,
      (r'.clickCount = 0 ∧ ∀ r ∈ s.rows, r.id ≠ r'.id) ∨
      (∃ r ∈ s.rows, r.id = r'.id ∧ r.shortCode = r'.shortCode ∧
         r.originalUrl = r'.originalUrl ∧ r.createdAt = r'.createdAt ∧
         r.clickCount ≤ r'.clickCount)) := by
  cases op with
  | stats code =>
    exact ⟨h1, h2, fun r' hr' => Or.inr ⟨r', hr', rfl, rfl, rfl, rfl, le_refl _⟩⟩
  | list page limit =>
    exact ⟨h1, h2, fun r' hr' => Or.inr ⟨r', hr', rfl, rfl, rfl, rfl, le_refl _⟩⟩
  | delete code =>
    have happly : applyOp s (.delete code)
        = ⟨s.rows.filter (fun r => !(r.shortCode == code)), s.nextId, s.now⟩ := rfl
    rw [happly]
    refine ⟨?_, ?_, ?_⟩
    · exact h1.sublist ((s.rows.filter_sublist).map Url.shortCode)
    · intro r hr
      exact h2 r (List.mem_of_mem_filter hr)
    · intro r' hr'
      exact Or.inr ⟨r', List.mem_of_mem_filter hr', rfl, rfl, rfl, rfl, le_refl _⟩
  | redirect code =>
    have happly : applyOp s (.redirect code)
        = (UrlController.redirectToOriginalUrl s code).2 := rfl
    rcases redirect_state_cases s code with h | h <;> rw [happly, h]
    · exact ⟨h1, h2, fun r' hr' => Or.inr ⟨r', hr', rfl, rfl, rfl, rfl, le_refl _⟩⟩
    · refine ⟨?_, ?_, ?_⟩
      · have hmap : (s.rows.map (bumpIfMatch code)).map Url.shortCode
            = s.rows.map Url.shortCode := by
          rw [List.map_map]
          exact List.map_congr_left (fun r _ => (bumpIfMatch_fields code r).2.1)
        simpa [hmap] using h1
      · intro r hr
        simp only [List.mem_map] at hr
        obtain ⟨r0, hr0, rfl⟩ := hr
        have := h2 r0 hr0
        simpa [(bumpIfMatch_fields code r0).1] using this
      · intro r' hr'
        simp only [List.mem_map] at hr'
        obtain ⟨r0, hr0, rfl⟩ := hr'
        obtain ⟨hid, hsc, ho, hca, hcc⟩ := bumpIfMatch_fields code r0
        exact Or.inr ⟨r0, hr0, hid.symm, hsc.symm, ho.symm, hca.symm, hcc⟩
  | shorten parse gen url cc =>
    have happly : applyOp s (.shorten parse gen url cc)
        = (UrlController.createShortUrl parse gen s url cc).2 := rfl
    rcases shorten_state_cases parse gen s url cc with h | ⟨c, hany, h⟩ <;> rw [happly, h]
    · exact ⟨h1, h2, fun r' hr' => Or.inr ⟨r', hr', rfl, rfl, rfl, rfl, le_refl _⟩⟩
    · have hnotmem : c ∉ s.rows.map Url.shortCode := by
        intro hc
        obtain ⟨r, hr, hrc⟩ := List.mem_map.mp hc
        have : s.rows.any (fun r => r.shortCode == c) = true :=
          List.any_eq_true.mpr ⟨r, hr, by simp [hrc]⟩
        rw [hany] at this
        exact Bool.false_ne_true this
      refine ⟨?_, ?_, ?_⟩
      · have hform : ∀ x ∈ s.rows, ¬ x.shortCode = c := by
          intro x hx hxc
          exact hnotmem (List.mem_map.mpr ⟨x, hx, hxc⟩)
        simpa [List.nodup_append] using ⟨h1, hform⟩
      · intro r hr
        rcases List.mem_append.mp hr with hr | hr
        · exact Nat.lt_succ_of_lt (h2 r hr)
        · obtain rfl : r = ⟨s.nextId, UrlValidator.normalizeUrl parse url, c, s.now, 0⟩ := by
            simpa using hr
          exact Nat.lt_succ_self _
      · intro r' hr'
        rcases List.mem_append.mp hr' with hr' | hr'
        · exact Or.inr ⟨r', hr', rfl, rfl, rfl, rfl, le_refl _⟩
        · obtain rfl : r' = ⟨s.nextId, UrlValidator.normalizeUrl parse url, c, s.now, 0⟩ := by
            simpa using hr'
          exact Or.inl ⟨rfl, fun r hr => Nat.ne_of_lt (h2 r hr)⟩

/-- Every reachable store state has duplicate-free short codes and all row
ids below the next SERIAL value. -/
theorem runOps_good (ops : List ReqOp) :
    ((runOps ops).rows.map Url.shortCode).Nodup ∧
    (∀ r ∈ (runOps ops).rows, r.id < (runOps ops).nextId) := by
  suffices h : ∀ (l : List ReqOp) (s : DBState), (s.rows.map Url.shortCode).Nodup →
      (∀ r ∈ s.rows, r.id < s.nextId) →
      ((l.foldl applyOp s).rows.map Url.shortCode).Nodup ∧
      (∀ r ∈ (l.foldl applyOp s).rows, r.id < (l.foldl applyOp s).nextId) by
    exact h ops DBState.init (by simp [DBState.init]) (by simp [DBState.init])
  intro l
  induction l with
  | nil => exact fun s hs1 hs2 => ⟨hs1, hs2⟩
  | cons op ops ih =>
    intro s hs1 hs2
    have hstep := applyOp_preserves s op hs1 hs2
    exact ih (applyOp s op) hstep.1 hstep.2.1

/-- C8: in every state reachable by a sequence of requests, short codes are
unique among live records (and remain so after one more request); one
further request evolves each row of the result so that it either already
existed with the same id, shortCode, originalUrl and createdAt and a
clickCount that did not decrease (no in-place update of originalUrl or
shortCode, createdAt set once), or is a fresh insertion with clickCount 0
(the orchestrator always inserts 0) and an id no prior row had. -/
theorem store_invariants (ops : List ReqOp) (op : ReqOp) (r' : Url)
    (hmem : r' ∈ (applyOp (runOps ops) op).rows) :
    ((runOps ops).rows.map Url.shortCode).Nodup ∧
    ((applyOp (runOps ops) op).rows.map Url.shortCode).Nodup ∧
    ((r'.clickCount = 0 ∧ ∀ r ∈ (runOps ops).rows, r.id ≠ r'.id) ∨
     (∃ r ∈ (runOps ops).rows, r.id = r'.id ∧ r.shortCode = r'.shortCode ∧
        r.originalUrl = r'.originalUrl ∧ r.createdAt = r'.createdAt ∧
        r.clickCount ≤ r'.clickCount)) := by
  have hg := runOps_good ops
  have hstep := applyOp_preserves (runOps ops) op hg.1 hg.2
  exact ⟨hg.1, hstep.1, hstep.2.2 r' hmem⟩

/-- Witness for C8: one concrete shorten request against the fresh store,
checked on the record it inserts. -/
theorem store_invariants_witness :
    ((applyOp (runOps [])
        (ReqOp.shorten
          (fun _ => some ⟨"http".toList, "e.com".toList, "http://e.com/".toList⟩)
          (fun _ => "abc123".toList) ("http://e.com".toList) none)).rows.map
      Url.shortCode).Nodup :=
  (store_invariants []
    (ReqOp.shorten
      (fun _ => some ⟨"http".toList, "e.com".toList, "http://e.com/".toList⟩)
      (fun _ => "abc123".toList) ("http://e.com".toList) none)
    ⟨1, "http://e.com".toList, "abc123".toList, 0, 0⟩ (by decide)).2.1
